import Mathlib

/-!
# The execution-context subsystem of pyv8 (`src/Context.cpp`)

A shallow embedding of `CContext` and of the part of the engine state it
touches.  Engine contexts are numbered; a handle is an `Option` of such a
number (`none` is the empty handle).  Every method is a function on the engine
state that either returns or stops with a `Fault`; undefined behaviour of the
C++ program (dereferencing an empty handle, using a deleted logger) is a
`Fault` too.
-/

namespace PyV8

/-- Host values, as far as the context subsystem inspects them: `None`, a
string, or anything else. -/
inductive PyObject where
  | none
  | str (s : String)
  | int (n : Int)
  | object (id : Nat)
  deriving DecidableEq

/-- The ways a call can stop without returning. -/
inductive Fault where
  /-- Use of `->` on an empty `v8::Handle`. -/
  | emptyHandle
  /-- A handle that names no context of the engine. -/
  | invalidHandle
  /-- A `logger_t` used or deleted after it was deleted. -/
  | useAfterFree
  /-- `v8::Context::Exit` on a context that was not the last one entered. -/
  | apiFailure
  /-- `CJavascriptException` raised to the host. -/
  | engineException
  /-- Compilation with no context entered. -/
  | noContext
  /-- The engine rejected the source. -/
  | compileError
  /-- The engine failed while running a script. -/
  | runtimeError
  deriving DecidableEq

/-- Index of an engine context inside the engine. -/
abbrev CtxId := Nat

/-- Address of a `logger_t` on the heap. -/
abbrev LoggerPtr := Nat

/-- Modelled from the spec: the engine context (`v8::Context`, part of the
engine, not under src/).  It has a security token (`none`: no explicit token),
one embedder-data slot `LoggerIndex` (`none`: unset) and the `__proto__` of its
global object. -/
structure V8Context where
  securityToken : Option String
  loggerSlot : Option LoggerPtr
  proto : Option PyObject
  deriving DecidableEq

/-- Modelled from the spec: the engine instance (`v8::Isolate`, not under
src/): its contexts, the per-thread stack of entered contexts (innermost
first), and the heap of loggers (`true`: allocated, `false`: deleted). -/
structure Isolate where
  contexts : List V8Context
  entered : List CtxId
  loggers : List Bool
  deriving DecidableEq

/-- The host-side `CContext`: the persistent handle `m_context` and the global
prototype `m_global` (`None` by default). -/
structure CContext where
  m_context : Option CtxId
  m_global : PyObject
  deriving DecidableEq

/-- A fresh engine context: default token, unset slot, no prototype. -/
def V8Context.fresh : V8Context :=
  { securityToken := none, loggerSlot := none, proto := none }

namespace Isolate

/-- Dereference of a handle: the engine context behind it. -/
def deref (s : Isolate) (h : Option CtxId) : Except Fault V8Context :=
  match h with
  | none => .error .emptyHandle
  | some i =>
    match s.contexts[i]? with
    | none => .error .invalidHandle
    | some c => .ok c

/-- Overwrite the engine context number `i`. -/
def setContext (s : Isolate) (i : CtxId) (c : V8Context) : Isolate :=
  { s with contexts := s.contexts.set i c }

/-- Modelled from the spec: `v8::Isolate::GetCurrentContext` (engine, not under
src/): the innermost entered context, or the empty handle. -/
def GetCurrentContext (s : Isolate) : Option CtxId := s.entered.head?

/-- Modelled from the spec: `v8::Isolate::InContext` (engine, not under src/):
"Returns true if V8 has a current context." -/
def InContext (s : Isolate) : Bool := !s.entered.isEmpty

/-- Modelled from the spec: `v8::Context::Enter` (engine, not under src/)
pushes the context onto the per-thread stack. -/
def enter (s : Isolate) (i : CtxId) : Isolate :=
  { s with entered := i :: s.entered }

/-- Modelled from the spec: `v8::Context::Exit` (engine, not under src/) pops
the top of the stack; an exit of a context that is not on top is detected by
the engine. -/
def exit (s : Isolate) (i : CtxId) : Except Fault Isolate :=
  match s.entered with
  | [] => .error .apiFailure
  | top :: rest => if top = i then .ok { s with entered := rest } else .error .apiFailure

/-- The logger at address `p` is allocated. -/
def loggerLive (s : Isolate) (p : LoggerPtr) : Bool := s.loggers[p]? == some true

/-- The result of `new logger_t()`: the next free address. -/
def newLogger (s : Isolate) : LoggerPtr × Isolate :=
  (s.loggers.length, { s with loggers := s.loggers ++ [true] })

/-- The C++ `delete p`: nothing for the null pointer, a fault for a pointer
that is not allocated. -/
def delete (s : Isolate) (p : Option LoggerPtr) : Except Fault Isolate :=
  match p with
  | none => .ok s
  | some a =>
    if s.loggerLive a then .ok { s with loggers := s.loggers.set a false }
    else .error .useAfterFree

/-- The slot of context `i` is unset or holds an allocated logger. -/
def slotOk (s : Isolate) (i : CtxId) : Bool :=
  match s.contexts[i]? with
  | none => false
  | some c =>
    match c.loggerSlot with
    | none => true
    | some p => s.loggerLive p

/-- Every engine context has an unset slot or one that holds an allocated
logger. -/
def slotsValid (s : Isolate) : Bool :=
  s.contexts.all fun c =>
    match c.loggerSlot with
    | none => true
    | some p => s.loggerLive p

end Isolate

/-- Modelled from the spec: `GetEmbedderData<logger_t>` (Context.h, not under
src/), the read of the slot `LoggerIndex`.  With a creator, an unset slot is
initialised on this first access with the logger the creator makes. -/
def GetEmbedderData (context : Option CtxId)
    (creator : Option (Isolate → LoggerPtr × Isolate)) (s : Isolate) :
    Except Fault (Option LoggerPtr × Isolate) :=
  match context with
  | none => .error .emptyHandle
  | some i =>
    match s.contexts[i]? with
    | none => .error .invalidHandle
    | some c =>
      match c.loggerSlot with
      | some p => .ok (some p, s)
      | none =>
        match creator with
        | none => .ok (none, s)
        | some create =>
          let (p, s1) := create s
          .ok (some p, s1.setContext i { c with loggerSlot := some p })

namespace CContext

/-- `CContext::GetLogger` (Context.cpp 135-147): the logger of the slot,
made by the lambda (`new logger_t()`) when the slot is unset. -/
def GetLogger (context : Option CtxId) (s : Isolate) : Except Fault (LoggerPtr × Isolate) :=
  match GetEmbedderData context (some fun u => u.newLogger) s with
  | .error e => .error e
  | .ok (none, _) => .error .emptyHandle
  | .ok (some p, s1) => .ok (p, s1)

/-- Modelled from the spec: the member `logger()` (Context.h, not under src/):
the logger of this Context's engine context, `GetLogger(m_context.Get(isolate))`. -/
def logger (c : CContext) (s : Isolate) : Except Fault (LoggerPtr × Isolate) :=
  GetLogger c.m_context s

/-- The statement `BOOST_LOG_SEV(logger(), trace) << ...`: `logger()` is
evaluated and a record is written through the logger it returns. -/
def log (c : CContext) (s : Isolate) : Except Fault Isolate :=
  match c.logger s with
  | .error e => .error e
  | .ok (p, s1) => if s1.loggerLive p then .ok s1 else .error .useAfterFree

/-- Modelled from the spec: the accessor `Context()` (Context.h, not under
src/): the local handle of the persistent `m_context`, as
`m_context.Get(isolate)` in `Dispose`. -/
def Context (c : CContext) : Option CtxId := c.m_context

/-- Modelled from the spec: `IsEntered` (Context.h, not under src/), the
truthiness of the host object: false once the engine handle is empty. -/
def IsEntered (c : CContext) : Bool := c.m_context.isSome

/-- The wrap constructor `CContext(v8::Handle<v8::Context>, isolate)`
(Context.cpp 52-55). -/
def wrap (context : Option CtxId) (s : Isolate) : Except Fault (CContext × Isolate) :=
  let this : CContext := { m_context := context, m_global := .none }
  match this.log s with
  | .error e => .error e
  | .ok s1 => .ok (this, s1)

/-- The copy constructor `CContext(const CContext &, isolate)`
(Context.cpp 57-60): a new persistent handle to the same engine context;
`m_global` is not copied. -/
def copy (context : CContext) (s : Isolate) : Except Fault (CContext × Isolate) :=
  let this : CContext := { m_context := context.m_context, m_global := .none }
  match this.log s with
  | .error e => .error e
  | .ok s1 => .ok (this, s1)

/-- `CContext::Dispose` (Context.cpp 117-133); the flag `disposed` only
chooses the text of the trace record. -/
def Dispose (c : CContext) (_disposed : Bool) (s : Isolate) : Except Fault (CContext × Isolate) :=
  if c.m_context.isNone then .ok (c, s)
  else
    let context := c.m_context
    match c.log s with
    | .error e => .error e
    | .ok s1 =>
      match GetEmbedderData context none s1 with
      | .error e => .error e
      | .ok (p, s2) =>
        match s2.delete p with
        | .error e => .error e
        | .ok s3 => .ok ({ c with m_context := none }, s3)

/-- Modelled from the spec: the host proxy made by `CJavascriptObject::Wrap`
(Wrapper.cpp, not under src/) for the global object of an engine context:
proxies are equal when they wrap the same engine object. -/
structure JSGlobalProxy where
  context : CtxId
  deriving DecidableEq

/-- `CContext::GetGlobal` (Context.cpp 149-154). -/
def GetGlobal (c : CContext) (s : Isolate) : Except Fault JSGlobalProxy :=
  match c.Context with
  | none => .error .emptyHandle
  | some i =>
    match s.contexts[i]? with
    | none => .error .invalidHandle
    | some _ => .ok { context := i }

/-- `CContext::GetSecurityToken` (Context.cpp 156-169): the empty string for
an empty token handle, else the token's string with its full length. -/
def GetSecurityToken (c : CContext) (s : Isolate) : Except Fault String :=
  match s.deref c.Context with
  | .error e => .error e
  | .ok ctx =>
    match ctx.securityToken with
    | none => .ok ""
    | some token => .ok token

/-- The value `v8::String::NewFromUtf8(isolate, data)` makes of a `const char *`
with no length given: the characters before the first NUL. -/
def NewFromUtf8 (data : String) : String :=
  String.mk (data.data.takeWhile fun ch => ch != Char.ofNat 0)

/-- `CContext::SetSecurityToken` (Context.cpp 171-187); `none` is the host
`None` (`token.is_none()`). -/
def SetSecurityToken (c : CContext) (token : Option String) (s : Isolate) :
    Except Fault Isolate :=
  match c.log s with
  | .error e => .error e
  | .ok s1 =>
    match c.Context with
    | none => .error .emptyHandle
    | some i =>
      match s1.contexts[i]? with
      | none => .error .invalidHandle
      | some ctx =>
        match token with
        | none => .ok (s1.setContext i { ctx with securityToken := none })
        | some t => .ok (s1.setContext i { ctx with securityToken := some (NewFromUtf8 t) })

/-- `CContext::Enter` (Context.cpp 189-196). -/
def Enter (c : CContext) (s : Isolate) : Except Fault Isolate :=
  match c.Context with
  | none => .error .emptyHandle
  | some i => c.log (s.enter i)

/-- `CContext::Leave` (Context.cpp 197-204). -/
def Leave (c : CContext) (s : Isolate) : Except Fault Isolate :=
  match c.Context with
  | none => .error .emptyHandle
  | some i =>
    match s.exit i with
    | .error e => .error e
    | .ok s1 => c.log s1

/-- The body shared by the static accessors: the host null value for an empty
answer, else a freshly constructed Context around the handle. -/
def wrapOrNone (handle : Option CtxId) (s : Isolate) :
    Except Fault (Option CContext × Isolate) :=
  match wrap handle s with
  | .error e => .error e
  | .ok (c, s1) => .ok (some c, s1)

/-- `CContext::GetCurrent` (Context.cpp 217-226), on the engine's answer
`current` to `GetCurrentContext`. -/
def GetCurrentOn (current : Option CtxId) (s : Isolate) :
    Except Fault (Option CContext × Isolate) :=
  if current.isNone then .ok (none, s) else wrapOrNone current s

/-- `CContext::GetCalling` (Context.cpp 228-237), on the engine's answers
`inContext` to `InContext` and `calling` to `GetCurrentContext`. -/
def GetCallingOn (inContext : Bool) (calling : Option CtxId) (s : Isolate) :
    Except Fault (Option CContext × Isolate) :=
  if !inContext || calling.isNone then .ok (none, s) else wrapOrNone calling s

/-- `CContext::GetCurrent` on the engine state. -/
def GetCurrent (s : Isolate) : Except Fault (Option CContext × Isolate) :=
  GetCurrentOn s.GetCurrentContext s

/-- `CContext::GetCalling` on the engine state. -/
def GetCalling (s : Isolate) : Except Fault (Option CContext × Isolate) :=
  GetCallingOn s.InContext s.GetCurrentContext s

/-- The answer of `py::extract<const std::string>`: `check()` holds for
strings only, and then the call gives the string. -/
def extractString : PyObject → Option String
  | .str s => some s
  | _ => none

/-- The vector `ext_names` after the first loop of the create constructor
(Context.cpp 70-78). -/
def ext_names : List PyObject → List String
  | [] => []
  | item :: rest =>
    match extractString item with
    | some name => name :: ext_names rest
    | none => ext_names rest

/-- The name behind the pointer `name.c_str()`, which carries no length: the
characters of `name` before the first NUL. -/
def c_str (name : String) : String :=
  String.mk (name.data.takeWhile fun ch => ch != Char.ofNat 0)

/-- The vector `ext_ptrs` after the second loop (Context.cpp 80-83): for every
name of `ext_names`, in order, the pointer `ext_names[i].c_str()`. -/
def ext_ptrs : List String → List String
  | [] => []
  | name :: rest => c_str name :: ext_ptrs rest

/-- The engine's `v8::ExtensionConfiguration(name_count, names)`: a count and
an array of NUL-terminated names. -/
structure ExtensionConfiguration where
  name_count : Nat
  names : List String
  deriving DecidableEq

/-- The pointer `cfg.get()` handed to `v8::Context::New` (Context.cpp 85-86):
null when `ext_ptrs` is empty. -/
def extensionConfiguration (extensions : List PyObject) : Option ExtensionConfiguration :=
  let ptrs := ext_ptrs (ext_names extensions)
  if ptrs.isEmpty then none else some { name_count := ptrs.length, names := ptrs }

/-- What the engine answers to `v8::Context::New` under the try-catch: whether
the handle it returns is non-empty, and whether the try-catch caught an
exception. -/
structure NewOutcome where
  created : Bool
  hasCaught : Bool
  deriving DecidableEq

/-- Modelled from the spec: `CJavascriptException::ThrowIf` (Exception.cpp, not
under src/): an exception captured by the try-catch is surfaced as
`EngineException`. -/
def ThrowIf (hasCaught : Bool) : Except Fault Unit :=
  if hasCaught then .error .engineException else .ok ()

/-- The create constructor `CContext(py::object, py::list, isolate)`
(Context.cpp 62-115); `New` is the engine's `v8::Context::New`. -/
def create (global : PyObject) (extensions : List PyObject)
    (New : Option ExtensionConfiguration → NewOutcome) (s : Isolate) :
    Except Fault (CContext × Isolate) :=
  let cfg := extensionConfiguration extensions
  let outcome := New cfg
  let this : CContext := { m_context := none, m_global := .none }
  if !outcome.created then
    match (if outcome.hasCaught then ThrowIf outcome.hasCaught else .ok ()) with
    | .error e => .error e
    | .ok _ => .ok (this, s)
  else
    let i : CtxId := s.contexts.length
    let s1 : Isolate := { s with contexts := s.contexts ++ [V8Context.fresh] }
    let this : CContext := { this with m_context := some i }
    match this.log s1 with
    | .error e => .error e
    | .ok s2 =>
      if global != .none then
        let s3 := s2.enter i
        match s3.contexts[i]? with
        | none => .error .invalidHandle
        | some ctx =>
          let s4 := s3.setContext i { ctx with proto := some global }
          let this : CContext := { this with m_global := global }
          match s4.exit i with
          | .error e => .error e
          | .ok s5 => .ok (this, s5)
      else .ok (this, s2)

end CContext

/-- Modelled from the spec: the JavaScript language as the engine implements
it (not under src/): which sources compile, and the host value a source gives
when run in an engine context (`none`: a run-time error). -/
structure JavaScript where
  compiles : String → Bool
  value : CtxId → String → Option PyObject

/-- Modelled from the spec: the compiled `Script` (not under src/), "bound to
the context active at compile time". -/
structure CScript where
  context : CtxId
  source : String
  deriving DecidableEq

/-- Modelled from the spec: `CEngine::Compile` (Engine.cpp, not under src/):
"compilation occurs under the currently entered context; if no context is
entered, fails with NoContext"; an engine error is a `CompileError`. -/
def CEngine.Compile (js : JavaScript) (s : Isolate) (src : String) (_name : String)
    (_line _col : Int) : Except Fault CScript :=
  match s.GetCurrentContext with
  | none => .error .noContext
  | some i => if js.compiles src then .ok { context := i, source := src } else .error .compileError

/-- Modelled from the spec: `CEngine::CompileW` (Engine.cpp, not under src/),
the same for wide source. -/
def CEngine.CompileW (js : JavaScript) (s : Isolate) (src : String) (_name : String)
    (_line _col : Int) : Except Fault CScript :=
  match s.GetCurrentContext with
  | none => .error .noContext
  | some i => if js.compiles src then .ok { context := i, source := src } else .error .compileError

/-- Modelled from the spec: `CScript::Run` (Engine.cpp, not under src/): runs
the script and converts the result; a run-time engine error is a
`RuntimeError`. -/
def CScript.Run (js : JavaScript) (script : CScript) : Except Fault PyObject :=
  match js.value script.context script.source with
  | none => .error .runtimeError
  | some v => .ok v

namespace CContext

/-- `CContext::Evaluate` (Context.cpp 239-250). -/
def Evaluate (js : JavaScript) (c : CContext) (src : String) (name : String)
    (line col : Int) (s : Isolate) : Except Fault (PyObject × Isolate) :=
  match CEngine.Compile js s src name line col with
  | .error e => .error e
  | .ok script =>
    match c.log s with
    | .error e => .error e
    | .ok s1 =>
      match script.Run js with
      | .error e => .error e
      | .ok v => .ok (v, s1)

/-- `CContext::EvaluateW` (Context.cpp 252-263). -/
def EvaluateW (js : JavaScript) (c : CContext) (src : String) (name : String)
    (line col : Int) (s : Isolate) : Except Fault (PyObject × Isolate) :=
  match CEngine.CompileW js s src name line col with
  | .error e => .error e
  | .ok script =>
    match c.log s with
    | .error e => .error e
    | .ok s1 =>
      match script.Run js with
      | .error e => .error e
      | .ok v => .ok (v, s1)

/-- One call of the enter/leave protocol. -/
inductive Event where
  | enter (c : CContext)
  | leave (c : CContext)
  deriving DecidableEq

/-- The Context an event is called on. -/
def Event.target : Event → CContext
  | .enter c => c
  | .leave c => c

/-- A sequence of enter/leave calls, run in order; it stops at the first
fault. -/
def runEvents : List Event → Isolate → Except Fault Isolate
  | [], s => .ok s
  | .enter c :: rest, s =>
    match c.Enter s with
    | .error e => .error e
    | .ok s1 => runEvents rest s1
  | .leave c :: rest, s =>
    match c.Leave s with
    | .error e => .error e
    | .ok s1 => runEvents rest s1

/-- The sequence is properly nested over the pending enters `pending`
(innermost first): every leave is on the engine context of the innermost
pending enter, and no enter is pending at the end. -/
def paired : List CtxId → List Event → Bool
  | pending, [] => pending.isEmpty
  | pending, .enter c :: rest =>
    match c.m_context with
    | none => false
    | some i => paired (i :: pending) rest
  | [], .leave _ :: _ => false
  | top :: pending, .leave c :: rest => c.m_context == some top && paired pending rest

end CContext

/-! ## The logger of a Context -/

namespace CContext

theorem loggerLive_newLogger (s : Isolate) :
    Isolate.loggerLive { s with loggers := s.loggers ++ [true] } s.loggers.length = true := by
  simp [Isolate.loggerLive]

theorem loggerLive_append (s : Isolate) (p : LoggerPtr) (h : s.loggerLive p = true) (cs : List V8Context) :
    Isolate.loggerLive { contexts := cs, entered := s.entered, loggers := s.loggers ++ [true] } p
      = true := by
  simp only [Isolate.loggerLive, beq_iff_eq] at h ⊢
  have hlt : p < s.loggers.length := by
    rcases Nat.lt_or_ge p s.loggers.length with h1 | h1
    · exact h1
    · rw [List.getElem?_eq_none h1] at h
      cases h
  rw [List.getElem?_append_left hlt]
  exact h

/-- A write through a logger whose slot is set returns exactly when the logger
is allocated, and changes nothing. -/
theorem log_slot_some {c : CContext} {s : Isolate} {i : CtxId} {ctx : V8Context} {p : LoggerPtr}
    (hc : c.m_context = some i) (hi : s.contexts[i]? = some ctx) (hp : ctx.loggerSlot = some p) :
    c.log s = if s.loggerLive p then .ok s else .error .useAfterFree := by
  simp [log, logger, GetLogger, GetEmbedderData, hc, hi, hp]

/-- A write through the logger of an unset slot allocates the logger, stores
it in the slot and returns. -/
theorem log_slot_none {c : CContext} {s : Isolate} {i : CtxId} {ctx : V8Context}
    (hc : c.m_context = some i) (hi : s.contexts[i]? = some ctx) (hp : ctx.loggerSlot = none) :
    c.log s = .ok { contexts := s.contexts.set i { ctx with loggerSlot := some s.loggers.length },
                    entered := s.entered, loggers := s.loggers ++ [true] } := by
  simp [log, logger, GetLogger, GetEmbedderData, hc, hi, hp, Isolate.newLogger,
    Isolate.setContext, Isolate.loggerLive]

theorem log_empty {c : CContext} (s : Isolate) (hc : c.m_context = none) :
    c.log s = .error .emptyHandle := by
  simp [log, logger, GetLogger, GetEmbedderData, hc]

/-- What a returning write through the logger does to the engine: only the
slot of this Context's engine context may change, to an allocated logger. -/
theorem log_ok {c : CContext} {s s1 : Isolate} (h : c.log s = .ok s1) :
    ∃ i ctx p, c.m_context = some i ∧ s.contexts[i]? = some ctx ∧
      s1.entered = s.entered ∧ s1.contexts.length = s.contexts.length ∧
      s1.contexts[i]? = some { ctx with loggerSlot := some p } ∧ s1.loggerLive p = true ∧
      (∀ j, j ≠ i → s1.contexts[j]? = s.contexts[j]?) ∧
      (∀ q, s.loggerLive q = true → s1.loggerLive q = true) := by
  cases hc : c.m_context with
  | none => rw [log_empty s hc] at h; cases h
  | some i =>
    cases hi : s.contexts[i]? with
    | none => simp [log, logger, GetLogger, GetEmbedderData, hc, hi] at h
    | some ctx =>
      have hlt : i < s.contexts.length := by
        rcases Nat.lt_or_ge i s.contexts.length with h1 | h1
        · exact h1
        · rw [List.getElem?_eq_none h1] at hi
          cases hi
      cases hp : ctx.loggerSlot with
      | some p =>
        rw [log_slot_some hc hi hp] at h
        by_cases hl : s.loggerLive p = true
        · simp only [hl, if_true, Except.ok.injEq] at h
          subst h
          refine ⟨i, ctx, p, rfl, hi, rfl, rfl, ?_, hl, fun _ _ => rfl, fun _ hq => hq⟩
          rw [hi, ← hp]
        · simp [hl] at h
      | none =>
        rw [log_slot_none hc hi hp] at h
        simp only [Except.ok.injEq] at h
        subst h
        refine ⟨i, ctx, s.loggers.length, rfl, hi, rfl, by simp, ?_, loggerLive_newLogger s, ?_, ?_⟩
        · simp [List.getElem?_set, hlt]
        · intro j hj
          simp [List.getElem?_set, Ne.symm hj]
        · intro q hq
          exact loggerLive_append s q hq _

/-- A write through the logger returns when the slot of the engine context is
unset or holds an allocated logger. -/
theorem log_returns {c : CContext} {s : Isolate} {i : CtxId} (hc : c.m_context = some i)
    (hs : s.slotOk i = true) : ∃ s1, c.log s = .ok s1 := by
  unfold Isolate.slotOk at hs
  cases hi : s.contexts[i]? with
  | none => simp [hi] at hs
  | some ctx =>
    simp only [hi] at hs
    cases hp : ctx.loggerSlot with
    | none => exact ⟨_, log_slot_none hc hi hp⟩
    | some p =>
      simp only [hp] at hs
      exact ⟨s, by rw [log_slot_some hc hi hp, hs]; rfl⟩

/-- After a returning write through the logger, the slot holds an allocated
logger. -/
theorem slotOk_of_log {c : CContext} {s s1 : Isolate} {i : CtxId} (hc : c.m_context = some i)
    (h : c.log s = .ok s1) : s1.slotOk i = true := by
  obtain ⟨j, ctx, p, hj, _, _, _, h1, h2, _, _⟩ := log_ok h
  rw [hc] at hj
  cases hj
  simp [Isolate.slotOk, h1, h2]

/-! ## Dispose -/

theorem Dispose_of_empty {c : CContext} (disposed : Bool) (s : Isolate) (hc : c.m_context = none) :
    c.Dispose disposed s = .ok (c, s) := by
  simp [Dispose, hc]

theorem Dispose_ok_empty {c c1 : CContext} {disposed : Bool} {s s1 : Isolate}
    (h : c.Dispose disposed s = .ok (c1, s1)) : c1.m_context = none := by
  unfold Dispose at h
  split at h
  · rename_i hn
    simp only [Except.ok.injEq, Prod.mk.injEq] at h
    rw [← h.1]
    simpa using hn
  · split at h
    · cases h
    · dsimp only at h
      split at h
      · cases h
      · split at h
        · cases h
        · simp only [Except.ok.injEq, Prod.mk.injEq] at h
          rw [← h.1]

theorem Dispose_returns {c : CContext} (disposed : Bool) {s : Isolate} {i : CtxId}
    (hc : c.m_context = some i) (hs : s.slotOk i = true) :
    ∃ s1, c.Dispose disposed s = .ok ({ c with m_context := none }, s1) := by
  obtain ⟨s1, h1⟩ := log_returns hc hs
  obtain ⟨j, ctx, p, hj, _, _, _, h2, h3, _, _⟩ := log_ok h1
  rw [hc] at hj
  cases hj
  refine ⟨{ s1 with loggers := s1.loggers.set p false }, ?_⟩
  simp [Dispose, hc, h1, GetEmbedderData, h2, Isolate.delete, h3]

/-- C1: `Dispose(); Dispose()` leaves the same Context and engine state as one
`Dispose()`, whatever the flags; the second call returns at the emptiness check
without a change; after a returning call the handle `m_context` is empty and
the Context is falsy; a call on an empty Context changes nothing, and a call on
a live Context whose slot is unset or holds an allocated logger returns. -/
theorem Dispose_idempotent (c : CContext) (d1 d2 : Bool) (s : Isolate) :
    (c.Dispose d1 s >>= fun r => r.1.Dispose d2 r.2) = c.Dispose d1 s ∧
    (∀ c1 s1, c.Dispose d1 s = .ok (c1, s1) →
      c1.m_context = none ∧ c1.IsEntered = false ∧ c1.Dispose d2 s1 = .ok (c1, s1)) ∧
    (c.m_context = none → c.Dispose d1 s = .ok (c, s)) ∧
    (∀ i, c.m_context = some i → s.slotOk i = true →
      ∃ s1, c.Dispose d1 s = .ok ({ c with m_context := none }, s1)) := by
  have key : ∀ c1 s1, c.Dispose d1 s = .ok (c1, s1) →
      c1.m_context = none ∧ c1.IsEntered = false ∧ c1.Dispose d2 s1 = .ok (c1, s1) := by
    intro c1 s1 h
    have h0 := Dispose_ok_empty h
    exact ⟨h0, by simp [IsEntered, h0], Dispose_of_empty d2 s1 h0⟩
  refine ⟨?_, key, fun hc => Dispose_of_empty d1 s hc, fun i hc hs => Dispose_returns d1 hc hs⟩
  cases h : c.Dispose d1 s with
  | error e => rfl
  | ok r =>
    obtain ⟨c1, s1⟩ := r
    show c1.Dispose d2 s1 = .ok (c1, s1)
    exact (key c1 s1 h).2.2

/-- C1 at a live Context on a one-context engine: both calls return, and the
second changes nothing. -/
theorem Dispose_idempotent_witness :
    (CContext.mk (some 0) .none).Dispose true ⟨[V8Context.fresh], [0], []⟩
      = .ok (⟨none, .none⟩, ⟨[⟨none, some 0, none⟩], [0], [false]⟩) ∧
    (CContext.mk none .none).Dispose true ⟨[⟨none, some 0, none⟩], [0], [false]⟩
      = .ok (⟨none, .none⟩, ⟨[⟨none, some 0, none⟩], [0], [false]⟩) ∧
    (CContext.mk none .none).IsEntered = false :=
  let h := (Dispose_idempotent ⟨some 0, .none⟩ true true ⟨[V8Context.fresh], [0], []⟩).2.1
    ⟨none, .none⟩ ⟨[⟨none, some 0, none⟩], [0], [false]⟩ rfl
  ⟨rfl, h.2.2, h.2.1⟩

/-! ## The security token -/

theorem NewFromUtf8_of_no_nul (t : String) (h : Char.ofNat 0 ∉ t.data) : NewFromUtf8 t = t := by
  have h1 : t.data.takeWhile (fun ch => ch != Char.ofNat 0) = t.data := by
    rw [List.takeWhile_eq_self_iff]
    intro ch hch
    simp only [bne_iff_ne, ne_eq]
    intro h2
    exact h (h2 ▸ hch)
  simp [NewFromUtf8, h1]

/-- On a live Context whose slot is unset or holds an allocated logger,
`SetSecurityToken` returns, and `GetSecurityToken` then gives the empty string
after `None` and the characters before the first NUL after a string. -/
theorem SetSecurityToken_then_Get {c : CContext} {s : Isolate} {i : CtxId}
    (hc : c.m_context = some i) (hs : s.slotOk i = true) (token : Option String) :
    ∃ s1, c.SetSecurityToken token s = .ok s1 ∧
      c.GetSecurityToken s1 = .ok ((token.map NewFromUtf8).getD "") := by
  obtain ⟨s1, h1⟩ := log_returns hc hs
  obtain ⟨j, ctx, p, hj, _, _, hlen, h2, _, _, _⟩ := log_ok h1
  rw [hc] at hj
  cases hj
  have hlt : i < s1.contexts.length := by
    rcases Nat.lt_or_ge i s1.contexts.length with h3 | h3
    · exact h3
    · rw [List.getElem?_eq_none h3] at h2
      cases h2
  cases token with
  | none =>
    refine ⟨_, by simp only [SetSecurityToken, h1, Context, hc, h2]; rfl, ?_⟩
    simp [GetSecurityToken, Context, hc, Isolate.deref, Isolate.setContext, List.getElem?_set, hlt]
  | some t =>
    refine ⟨_, by simp only [SetSecurityToken, h1, Context, hc, h2]; rfl, ?_⟩
    simp [GetSecurityToken, Context, hc, Isolate.deref, Isolate.setContext, List.getElem?_set, hlt]

/-- C2: on a fresh live Context, setting the token to the three characters
`a`, NUL, `b` and reading it gives `a`, not the string that was set. -/
theorem SecurityToken_cut_at_nul :
    ((CContext.mk (some 0) .none).SetSecurityToken (some (String.mk [Char.ofNat 97, Char.ofNat 0, Char.ofNat 98]))
        ⟨[V8Context.fresh], [], []⟩ >>= fun s1 => (CContext.mk (some 0) .none).GetSecurityToken s1)
      = .ok (String.mk [Char.ofNat 97]) ∧
    String.mk [Char.ofNat 97] ≠ String.mk [Char.ofNat 97, Char.ofNat 0, Char.ofNat 98] := by
  constructor
  · rfl
  · decide

/-! ## Operations on a Context whose handle is empty -/

/-- C4: on a Context whose handle is empty, `Enter`, `Leave`, `GetGlobal`,
`GetSecurityToken` and `SetSecurityToken` dereference the empty handle, in
every engine state; only `Dispose` returns without a change. -/
theorem empty_handle_is_dereferenced (g : PyObject) (s : Isolate) (token : Option String)
    (disposed : Bool) :
    (CContext.mk none g).Enter s = .error .emptyHandle ∧
    (CContext.mk none g).Leave s = .error .emptyHandle ∧
    (CContext.mk none g).GetGlobal s = .error .emptyHandle ∧
    (CContext.mk none g).GetSecurityToken s = .error .emptyHandle ∧
    (CContext.mk none g).SetSecurityToken token s = .error .emptyHandle ∧
    (CContext.mk none g).Dispose disposed s = .ok (CContext.mk none g, s) := by
  refine ⟨rfl, rfl, rfl, rfl, rfl, rfl⟩

/-! ## The create constructor -/

theorem ext_ptrs_eq (names : List String) : ext_ptrs names = names.map c_str := by
  induction names with
  | nil => rfl
  | cons name rest ih => simp [ext_ptrs, ih]

theorem c_str_of_no_nul (name : String) (h : Char.ofNat 0 ∉ name.data) : c_str name = name := by
  have h1 : name.data.takeWhile (fun ch => ch != Char.ofNat 0) = name.data := by
    rw [List.takeWhile_eq_self_iff]
    intro ch hch
    simp only [bne_iff_ne, ne_eq]
    intro h2
    exact h (h2 ▸ hch)
  simp [c_str, h1]

theorem map_c_str_of_no_nul (names : List String)
    (h : ∀ name ∈ names, Char.ofNat 0 ∉ name.data) : names.map c_str = names := by
  induction names with
  | nil => rfl
  | cons name rest ih =>
    rw [List.map_cons, c_str_of_no_nul name (h name (List.mem_cons_self _ _)),
      ih fun n hn => h n (List.mem_cons_of_mem _ hn)]

theorem ext_names_eq (extensions : List PyObject) :
    ext_names extensions = extensions.filterMap extractString := by
  induction extensions with
  | nil => rfl
  | cons item rest ih =>
    cases h : extractString item with
    | none => simp [ext_names, h, ih, List.filterMap_cons]
    | some name => simp [ext_names, h, ih, List.filterMap_cons]

theorem str_of_extractString {o : PyObject} {name : String} (h : extractString o = some name) :
    o = .str name := by
  cases o <;> simp [extractString] at h
  rw [h]

theorem filterMap_extractString (extensions : List PyObject) :
    (extensions.filterMap extractString).map PyObject.str
      = extensions.filter fun o => (extractString o).isSome := by
  induction extensions with
  | nil => rfl
  | cons item rest ih =>
    cases h : extractString item with
    | none => simp [List.filterMap_cons, List.filter_cons, h, ih]
    | some name =>
      have hitem := str_of_extractString h
      subst hitem
      simp [List.filterMap_cons, List.filter_cons, extractString, ih]

/-- C5, as the claim states it, fails: for the one-entry list with the string
`a`, NUL, `b`, the configuration handed to the engine names `a`, not the
entry. -/
theorem extensionConfiguration_cuts_at_nul :
    extensionConfiguration [.str (String.mk [Char.ofNat 97, Char.ofNat 0, Char.ofNat 98])]
      = some { name_count := 1, names := [String.mk [Char.ofNat 97]] } ∧
    extensionConfiguration [.str (String.mk [Char.ofNat 97, Char.ofNat 0, Char.ofNat 98])]
      ≠ some { name_count := 1,
               names := [String.mk [Char.ofNat 97, Char.ofNat 0, Char.ofNat 98]] } := by
  constructor
  · rfl
  · decide

/-- C5, amended: the configuration handed to the engine holds, for the strings
of the extensions list in their order, the NUL-terminated name of each (its
characters before the first NUL), with the number of strings as count; it is
the strings themselves when none of them has a NUL; it is null when the list
has no string; entries that are not strings are dropped; and the create
constructor asks the engine for a context with this configuration and no
other. -/
theorem extensionConfiguration_c_strings (extensions : List PyObject) :
    extensionConfiguration extensions
      = (if extensions.filterMap extractString = [] then none
         else some { name_count := (extensions.filterMap extractString).length,
                     names := (extensions.filterMap extractString).map c_str }) ∧
    ((∀ name ∈ extensions.filterMap extractString, Char.ofNat 0 ∉ name.data) →
      extensionConfiguration extensions
        = (if extensions.filterMap extractString = [] then none
           else some { name_count := (extensions.filterMap extractString).length,
                       names := extensions.filterMap extractString })) ∧
    (extensions.filterMap extractString).map PyObject.str
      = (extensions.filter fun o => (extractString o).isSome) ∧
    (extensions.filterMap extractString).length
      = (extensions.countP fun o => (extractString o).isSome) ∧
    ∀ (g : PyObject) (New : Option ExtensionConfiguration → NewOutcome) (s : Isolate),
      create g extensions New s
        = create g extensions (fun _ => New (extensionConfiguration extensions)) s := by
  have h1 : extensionConfiguration extensions
      = (if extensions.filterMap extractString = [] then none
         else some { name_count := (extensions.filterMap extractString).length,
                     names := (extensions.filterMap extractString).map c_str }) := by
    simp only [extensionConfiguration, ext_ptrs_eq, ext_names_eq, List.isEmpty_iff,
      List.map_eq_nil_iff, List.length_map]
  refine ⟨h1, ?_, filterMap_extractString extensions, ?_, fun _ _ _ => rfl⟩
  · intro h
    rw [h1, map_c_str_of_no_nul _ h]
  · rw [← List.length_map (extensions.filterMap extractString) PyObject.str,
      filterMap_extractString, List.countP_eq_length_filter]

/-- C5, amended, on a list of a string, a number and a string: the two
strings are handed over in order, the number is dropped. -/
theorem extensionConfiguration_c_strings_witness :
    extensionConfiguration [.str "gc", .int 3, .str "ext"]
      = some { name_count := 2, names := ["gc", "ext"] } :=
  (extensionConfiguration_c_strings [.str "gc", .int 3, .str "ext"]).2.1 (by decide)

theorem create_of_created (global : PyObject) (extensions : List PyObject)
    (New : Option ExtensionConfiguration → NewOutcome) (s : Isolate)
    (h : (New (extensionConfiguration extensions)).created = true) :
    create global extensions New s
      = .ok ({ m_context := some s.contexts.length, m_global := global },
             { contexts := s.contexts ++
                 [V8Context.mk none (some s.loggers.length)
                   (if global = PyObject.none then none else some global)],
               entered := s.entered, loggers := s.loggers ++ [true] }) := by
  have hlog : (CContext.mk (some s.contexts.length) .none).log
        { contexts := s.contexts ++ [V8Context.mk none none none], entered := s.entered,
          loggers := s.loggers }
      = .ok { contexts := s.contexts ++ [V8Context.mk none (some s.loggers.length) none],
              entered := s.entered, loggers := s.loggers ++ [true] } := by
    rw [@log_slot_none ⟨some s.contexts.length, .none⟩ _ s.contexts.length
      (V8Context.mk none none none) rfl (by simp) rfl]
    simp
  by_cases hg : global = .none
  · subst hg
    simp [create, h, hlog, V8Context.fresh]
  · simp [create, h, hlog, hg, V8Context.fresh, Isolate.enter, Isolate.exit, Isolate.setContext]

/-- C6: when the engine returns an empty context, the create constructor
raises `EngineException` if the try-catch caught an exception, and otherwise
returns a falsy Context with an empty handle and no global prototype, the
engine unchanged; when the engine returns a context, the constructor returns a Context
that holds it, and the prototype is installed in the engine context and stored
in `m_global` exactly when the supplied global is not `None`. -/
theorem create_outcomes (global : PyObject) (extensions : List PyObject)
    (New : Option ExtensionConfiguration → NewOutcome) (s : Isolate) :
    ((New (extensionConfiguration extensions)).created = false →
      (New (extensionConfiguration extensions)).hasCaught = true →
      create global extensions New s = .error .engineException) ∧
    ((New (extensionConfiguration extensions)).created = false →
      (New (extensionConfiguration extensions)).hasCaught = false →
      create global extensions New s = .ok ({ m_context := none, m_global := .none }, s) ∧
      IsEntered { m_context := none, m_global := .none } = false) ∧
    ((New (extensionConfiguration extensions)).created = true →
      ∃ c s1, create global extensions New s = .ok (c, s1) ∧
        c.m_context = some s.contexts.length ∧
        s1.entered = s.entered ∧
        (global = .none → c.m_global = .none ∧
          s1.contexts[s.contexts.length]?.map V8Context.proto = some none) ∧
        (global ≠ .none → c.m_global = global ∧
          s1.contexts[s.contexts.length]?.map V8Context.proto = some (some global))) := by
  refine ⟨?_, ?_, ?_⟩
  · intro h1 h2
    simp [create, h1, h2, ThrowIf]
  · intro h1 h2
    simp [create, h1, h2, IsEntered]
  · intro h
    refine ⟨_, _, create_of_created global extensions New s h, rfl, rfl, ?_, ?_⟩
    · intro hg
      simp [hg]
    · intro hg
      simp [hg]

/-- C6 at three engine answers: an empty context with a caught exception, an
empty context with none, and a context with a host object as global. -/
theorem create_outcomes_witness :
    create .none [] (fun _ => ⟨false, true⟩) ⟨[], [], []⟩ = .error .engineException ∧
    create .none [] (fun _ => ⟨false, false⟩) ⟨[], [], []⟩ = .ok (⟨none, .none⟩, ⟨[], [], []⟩) ∧
    ∃ c s1, create (.object 7) [] (fun _ => ⟨true, false⟩) ⟨[], [], []⟩ = .ok (c, s1) ∧
      c.m_context = some 0 ∧ c.m_global = .object 7 ∧
      s1.contexts[0]?.map V8Context.proto = some (some (.object 7)) :=
  ⟨(create_outcomes .none [] (fun _ => ⟨false, true⟩) ⟨[], [], []⟩).1 rfl rfl,
   ((create_outcomes .none [] (fun _ => ⟨false, false⟩) ⟨[], [], []⟩).2.1 rfl rfl).1,
   match (create_outcomes (.object 7) [] (fun _ => ⟨true, false⟩) ⟨[], [], []⟩).2.2 rfl with
   | ⟨c, s1, h, hc, _, _, hg⟩ => ⟨c, s1, h, hc, (hg (by decide)).1, (hg (by decide)).2⟩⟩

/-! ## The static stack accessors -/

/-- C10: `GetCalling` is computed from the engine's current context: it gives
the host null value when the engine is not in a context or the current handle
is empty, and otherwise the freshly constructed Context of that same handle,
which is what `GetCurrent` gives; the two agree whenever the engine reports an
empty current context exactly when it is not in a context, as the engine of
this model always does. -/
theorem GetCalling_reads_current (inContext : Bool) (current : Option CtxId) (s : Isolate) :
    GetCalling s = GetCallingOn s.InContext s.GetCurrentContext s ∧
    GetCurrent s = GetCurrentOn s.GetCurrentContext s ∧
    (inContext = false ∨ current = none → GetCallingOn inContext current s = .ok (none, s)) ∧
    (inContext = true → current ≠ none →
      GetCallingOn inContext current s = wrapOrNone current s ∧
      GetCurrentOn current s = wrapOrNone current s) ∧
    ((current = none ↔ inContext = false) →
      GetCallingOn inContext current s = GetCurrentOn current s) ∧
    GetCalling s = GetCurrent s := by
  have hagree : ∀ (b : Bool) (h : Option CtxId), (h = none ↔ b = false) →
      GetCallingOn b h s = GetCurrentOn h s := by
    intro b h hiff
    cases h with
    | none => simp [GetCallingOn, GetCurrentOn]
    | some i =>
      have hb : b = true := by
        cases b
        · exact absurd (hiff.2 rfl) (by simp)
        · rfl
      simp [GetCallingOn, GetCurrentOn, hb]
  refine ⟨rfl, rfl, ?_, ?_, hagree inContext current, ?_⟩
  · rintro (h | h)
    · simp [GetCallingOn, h]
    · simp [GetCallingOn, h]
  · intro h1 h2
    cases current with
    | none => exact absurd rfl h2
    | some i => simp [GetCallingOn, GetCurrentOn, h1]
  · apply hagree
    cases h : s.entered <;> simp [Isolate.GetCurrentContext, Isolate.InContext, h]

/-- C10 on an engine with one context, entered: both accessors return a
Context around context 0. -/
theorem GetCalling_reads_current_witness :
    GetCallingOn true (some 0) ⟨[⟨none, none, none⟩], [0], []⟩
      = GetCurrentOn (some 0) ⟨[⟨none, none, none⟩], [0], []⟩ ∧
    GetCurrentOn (some 0) ⟨[⟨none, none, none⟩], [0], []⟩
      = .ok (some ⟨some 0, .none⟩, ⟨[⟨none, some 0, none⟩], [0], [true]⟩) :=
  ⟨(GetCalling_reads_current true (some 0) ⟨[⟨none, none, none⟩], [0], []⟩).2.2.2.2.1
      (by decide), rfl⟩

/-! ## Copy construction -/

theorem copy_returns {a : CContext} {s : Isolate} {i : CtxId} (hc : a.m_context = some i)
    (hs : s.slotOk i = true) : ∃ s1, a.copy s = .ok ({ m_context := some i, m_global := .none }, s1) := by
  obtain ⟨s1, h1⟩ := @log_returns ⟨some i, .none⟩ s i rfl hs
  exact ⟨s1, by simp only [copy, h1, hc]⟩

theorem copy_ok {a b : CContext} {s s1 : Isolate} (h : a.copy s = .ok (b, s1)) :
    b.m_context = a.m_context := by
  unfold copy at h
  dsimp only at h
  split at h
  · cases h
  · simp only [Except.ok.injEq, Prod.mk.injEq] at h
    rw [← h.1]

/-- The methods of a Context look at its handle only. -/
theorem same_handle_same_methods {a b : CContext} (h : b.m_context = a.m_context) (t : Isolate) :
    b.GetGlobal t = a.GetGlobal t ∧ b.GetSecurityToken t = a.GetSecurityToken t ∧
    (∀ token, b.SetSecurityToken token t = a.SetSecurityToken token t) ∧
    b.Enter t = a.Enter t ∧ b.Leave t = a.Leave t := by
  have hlog : ∀ u, b.log u = a.log u := fun u => by simp [log, logger, h]
  refine ⟨by simp [GetGlobal, Context, h], by simp [GetSecurityToken, Context, h], ?_, ?_, ?_⟩
  · intro token
    simp [SetSecurityToken, Context, h, hlog]
  · simp [Enter, Context, h, hlog]
  · simp [Leave, Context, h, hlog]

theorem Enter_ok {c : CContext} {t t1 : Isolate} (h : c.Enter t = .ok t1) :
    ∃ i, c.m_context = some i ∧ t1.entered = i :: t.entered ∧
      t1.contexts.length = t.contexts.length := by
  unfold Enter Context at h
  split at h
  · cases h
  · rename_i i hi
    obtain ⟨_, _, _, _, _, h1, h2, _⟩ := log_ok h
    exact ⟨i, hi, h1, h2⟩

theorem Leave_ok {c : CContext} {t t1 : Isolate} (h : c.Leave t = .ok t1) :
    ∃ i, c.m_context = some i ∧ t.entered = i :: t1.entered ∧
      t1.contexts.length = t.contexts.length := by
  unfold Leave Context at h
  split at h
  · cases h
  · rename_i i hi
    split at h
    · cases h
    · rename_i t0 h0
      obtain ⟨_, _, _, _, _, h1, h2, _⟩ := log_ok h
      unfold Isolate.exit at h0
      split at h0
      · cases h0
      · rename_i top rest hr
        split at h0
        · rename_i htop
          simp only [Except.ok.injEq] at h0
          subst h0
          subst htop
          exact ⟨top, hi, by rw [hr, h1], h2⟩
        · cases h0

theorem SetSecurityToken_ok {c : CContext} {t t1 : Isolate} {token : Option String}
    (h : c.SetSecurityToken token t = .ok t1) :
    c.GetSecurityToken t1 = .ok ((token.map NewFromUtf8).getD "") := by
  unfold SetSecurityToken Context at h
  split at h
  · cases h
  · rename_i s1 hlog
    split at h
    · cases h
    · rename_i i hi
      split at h
      · cases h
      · rename_i ctx hctx
        have hlt : i < s1.contexts.length := by
          rcases Nat.lt_or_ge i s1.contexts.length with h3 | h3
          · exact h3
          · rw [List.getElem?_eq_none h3] at hctx
            cases hctx
        cases token with
        | none =>
          simp only [Except.ok.injEq] at h
          subst h
          simp [GetSecurityToken, Context, hi, Isolate.deref, Isolate.setContext,
            List.getElem?_set, hlt]
        | some tok =>
          simp only [Except.ok.injEq] at h
          subst h
          simp [GetSecurityToken, Context, hi, Isolate.deref, Isolate.setContext,
            List.getElem?_set, hlt]

theorem Leave_after_Enter {a b : CContext} (h : b.m_context = a.m_context) {t t1 : Isolate}
    (h1 : a.Enter t = .ok t1) : ∃ t2, b.Leave t1 = .ok t2 ∧ t2.entered = t.entered := by
  obtain ⟨i, hi, he, _⟩ := Enter_ok h1
  have hs : t1.slotOk i = true := by
    unfold Enter Context at h1
    rw [hi] at h1
    exact slotOk_of_log hi h1
  have hb : b.m_context = some i := by rw [h, hi]
  have hs2 : Isolate.slotOk { t1 with entered := t.entered } i = true := hs
  obtain ⟨t2, h2⟩ := log_returns hb hs2
  obtain ⟨_, _, _, _, _, h3, _⟩ := log_ok h2
  refine ⟨t2, ?_, h3⟩
  simp [Leave, Context, hb, Isolate.exit, he, h2]

/-- C7: a Context `b` copy-constructed from `a` holds the engine context of
`a`: `GetGlobal` and `GetSecurityToken` give the same through both,
`SetSecurityToken`, `Enter` and `Leave` do the same through both, a token set
through one is read through the other, an `Enter` through one pushes the shared
engine context and a `Leave` through the other pops it; and the copy of a live
Context whose slot is unset or holds an allocated logger returns. -/
theorem copy_aliases (a : CContext) (s : Isolate) :
    (∀ b s1, a.copy s = .ok (b, s1) →
      b.m_context = a.m_context ∧
      ∀ t : Isolate,
        b.GetGlobal t = a.GetGlobal t ∧ b.GetSecurityToken t = a.GetSecurityToken t ∧
        (∀ token, b.SetSecurityToken token t = a.SetSecurityToken token t) ∧
        b.Enter t = a.Enter t ∧ b.Leave t = a.Leave t ∧
        (∀ token t1, a.SetSecurityToken token t = .ok t1 →
          b.GetSecurityToken t1 = .ok ((token.map NewFromUtf8).getD "")) ∧
        (∀ token t1, b.SetSecurityToken token t = .ok t1 →
          a.GetSecurityToken t1 = .ok ((token.map NewFromUtf8).getD "")) ∧
        (∀ t1, a.Enter t = .ok t1 →
          (∃ i, a.m_context = some i ∧ b.m_context = some i ∧ t1.entered = i :: t.entered) ∧
          ∃ t2, b.Leave t1 = .ok t2 ∧ t2.entered = t.entered) ∧
        (∀ t1, b.Enter t = .ok t1 →
          ∃ t2, a.Leave t1 = .ok t2 ∧ t2.entered = t.entered)) ∧
    (∀ i, a.m_context = some i → s.slotOk i = true →
      ∃ s1, a.copy s = .ok ({ m_context := some i, m_global := .none }, s1)) := by
  refine ⟨?_, fun i hc hs => copy_returns hc hs⟩
  intro b s1 h
  have hb := copy_ok h
  refine ⟨hb, fun t => ?_⟩
  obtain ⟨h1, h2, h3, h4, h5⟩ := same_handle_same_methods hb t
  refine ⟨h1, h2, h3, h4, h5, ?_, ?_, ?_, ?_⟩
  · intro token t1 hset
    rw [(same_handle_same_methods hb t1).2.1]
    exact SetSecurityToken_ok hset
  · intro token t1 hset
    rw [← (same_handle_same_methods hb t1).2.1]
    exact SetSecurityToken_ok hset
  · intro t1 hen
    obtain ⟨i, hi, he, _⟩ := Enter_ok hen
    exact ⟨⟨i, hi, by rw [hb, hi], he⟩, Leave_after_Enter hb hen⟩
  · intro t1 hen
    exact Leave_after_Enter hb.symm hen

/-- C7 on a one-context engine: the copy returns, and a token set through the
original is read through the copy. -/
theorem copy_aliases_witness :
    ∃ b s1, (CContext.mk (some 0) (.object 7)).copy ⟨[V8Context.fresh], [], []⟩ = .ok (b, s1) ∧
      b.m_context = some 0 ∧
      b.GetSecurityToken ⟨[⟨some "abc", some 0, none⟩], [], [true]⟩ = .ok "abc" :=
  match (copy_aliases ⟨some 0, .object 7⟩ ⟨[V8Context.fresh], [], []⟩).2 0 rfl rfl with
  | ⟨s1, h⟩ =>
    ⟨_, s1, h, rfl,
      ((copy_aliases ⟨some 0, .object 7⟩ ⟨[V8Context.fresh], [], []⟩).1 _ s1 h).2
        ⟨[V8Context.fresh], [], []⟩ |>.2.2.2.2.2.1 (some "abc")
        ⟨[⟨some "abc", some 0, none⟩], [], [true]⟩ rfl⟩

/-! ## The logger slot after Dispose -/

/-- C9: a Context is created on an empty engine and copied, and the original
is disposed.  The engine context, still held by the copy, then has a slot that
holds the deleted logger: `logger()` through the copy returns that logger, not
a fresh one, and a write through it, or a `Dispose` of the copy, uses it after
its deletion. -/
theorem Dispose_keeps_deleted_logger_in_slot :
    create .none [] (fun _ => ⟨true, false⟩) ⟨[], [], []⟩
      = .ok (⟨some 0, .none⟩, ⟨[⟨none, some 0, none⟩], [], [true]⟩) ∧
    (CContext.mk (some 0) .none).copy ⟨[⟨none, some 0, none⟩], [], [true]⟩
      = .ok (⟨some 0, .none⟩, ⟨[⟨none, some 0, none⟩], [], [true]⟩) ∧
    Isolate.slotsValid ⟨[⟨none, some 0, none⟩], [], [true]⟩ = true ∧
    (CContext.mk (some 0) .none).Dispose true ⟨[⟨none, some 0, none⟩], [], [true]⟩
      = .ok (⟨none, .none⟩, ⟨[⟨none, some 0, none⟩], [], [false]⟩) ∧
    Isolate.slotsValid ⟨[⟨none, some 0, none⟩], [], [false]⟩ = false ∧
    Isolate.loggerLive ⟨[⟨none, some 0, none⟩], [], [false]⟩ 0 = false ∧
    (CContext.mk (some 0) .none).logger ⟨[⟨none, some 0, none⟩], [], [false]⟩
      = .ok (0, ⟨[⟨none, some 0, none⟩], [], [false]⟩) ∧
    (CContext.mk (some 0) .none).log ⟨[⟨none, some 0, none⟩], [], [false]⟩
      = .error .useAfterFree ∧
    (CContext.mk (some 0) .none).Dispose true ⟨[⟨none, some 0, none⟩], [], [false]⟩
      = .error .useAfterFree := by
  refine ⟨rfl, rfl, rfl, rfl, rfl, rfl, rfl, rfl, rfl⟩

/-! ## Evaluation -/

theorem Evaluate_eq_EvaluateW (js : JavaScript) (c : CContext) (src name : String)
    (line col : Int) (s : Isolate) :
    c.EvaluateW js src name line col s = c.Evaluate js src name line col s := rfl

theorem Evaluate_ok {js : JavaScript} {c : CContext} {src name : String} {line col : Int}
    {s s1 : Isolate} {v : PyObject} (h : c.Evaluate js src name line col s = .ok (v, s1)) :
    s1.entered = s.entered ∧
      ∃ top, s.GetCurrentContext = some top ∧ js.value top src = some v := by
  unfold Evaluate CEngine.Compile at h
  cases htop : s.GetCurrentContext with
  | none => simp [htop] at h
  | some top =>
    by_cases hcomp : js.compiles src = true
    · simp only [htop, hcomp, if_true] at h
      cases hlog : c.log s with
      | error e => simp [hlog] at h
      | ok s2 =>
        obtain ⟨_, _, _, _, _, he, _⟩ := log_ok hlog
        cases hv : js.value top src with
        | none => simp [hlog, CScript.Run, hv] at h
        | some w =>
          simp only [hlog, CScript.Run, hv, Except.ok.injEq, Prod.mk.injEq] at h
          exact ⟨by rw [← h.2, he], top, rfl, by rw [hv, h.1]⟩
    · simp [htop, hcomp] at h

theorem Evaluate_returns {js : JavaScript} {c : CContext} {src : String} (name : String)
    (line col : Int) {s : Isolate} {i top : CtxId} {v : PyObject}
    (hc : c.m_context = some i) (hs : s.slotOk i = true)
    (htop : s.GetCurrentContext = some top) (hcomp : js.compiles src = true)
    (hv : js.value top src = some v) :
    ∃ s1, c.Evaluate js src name line col s = .ok (v, s1) := by
  obtain ⟨s1, h1⟩ := log_returns hc hs
  exact ⟨s1, by simp [Evaluate, CEngine.Compile, htop, hcomp, h1, CScript.Run, hv]⟩

/-- C8: `Evaluate` and `EvaluateW` do not enter the Context they are called
on: when they return, the stack of entered contexts is the one before the call
and the value is that of the source in the context on top of the stack,
whatever the Context of the call; with no context entered they fail with
`NoContext`; and they return on a live Context whose slot is unset or holds an
allocated logger when a context is entered and the source compiles and runs. -/
theorem Evaluate_does_not_enter (js : JavaScript) (c : CContext) (src name : String)
    (line col : Int) (s : Isolate) :
    (∀ v s1, c.Evaluate js src name line col s = .ok (v, s1) →
      s1.entered = s.entered ∧
      ∃ top, s.GetCurrentContext = some top ∧ js.value top src = some v) ∧
    (∀ v s1, c.EvaluateW js src name line col s = .ok (v, s1) →
      s1.entered = s.entered ∧
      ∃ top, s.GetCurrentContext = some top ∧ js.value top src = some v) ∧
    (s.GetCurrentContext = none →
      c.Evaluate js src name line col s = .error .noContext ∧
      c.EvaluateW js src name line col s = .error .noContext) ∧
    (∀ i top v, c.m_context = some i → s.slotOk i = true →
      s.GetCurrentContext = some top → js.compiles src = true → js.value top src = some v →
      ∃ s1, c.Evaluate js src name line col s = .ok (v, s1) ∧
        c.EvaluateW js src name line col s = .ok (v, s1) ∧ s1.entered = s.entered) := by
  refine ⟨fun v s1 h => Evaluate_ok h, fun v s1 h => ?_, fun h => ?_, ?_⟩
  · rw [Evaluate_eq_EvaluateW] at h
    exact Evaluate_ok h
  · rw [Evaluate_eq_EvaluateW]
    simp [Evaluate, CEngine.Compile, h]
  · intro i top v hc hs htop hcomp hv
    obtain ⟨s1, h1⟩ := Evaluate_returns name line col hc hs htop hcomp hv
    exact ⟨s1, h1, by rw [Evaluate_eq_EvaluateW]; exact h1, (Evaluate_ok h1).1⟩

/-- C8 with two contexts, context 1 entered and the call made on the Context
of context 0: the source is evaluated in context 1, and the stack stays. -/
theorem Evaluate_does_not_enter_witness :
    ∃ s1, (CContext.mk (some 0) .none).Evaluate ⟨fun _ => true, fun i _ => some (.int i)⟩
        "1+2" "" (-1) (-1) ⟨[V8Context.fresh, V8Context.fresh], [1], []⟩ = .ok (.int 1, s1) ∧
      (CContext.mk (some 0) .none).EvaluateW ⟨fun _ => true, fun i _ => some (.int i)⟩
        "1+2" "" (-1) (-1) ⟨[V8Context.fresh, V8Context.fresh], [1], []⟩ = .ok (.int 1, s1) ∧
      s1.entered = [1] :=
  (Evaluate_does_not_enter ⟨fun _ => true, fun i _ => some (.int i)⟩ ⟨some 0, .none⟩
    "1+2" "" (-1) (-1) ⟨[V8Context.fresh, V8Context.fresh], [1], []⟩).2.2.2 0 1 (.int 1)
    rfl rfl rfl rfl rfl

/-! ## Enter and Leave -/

theorem slotsValid_iff (s : Isolate) :
    s.slotsValid = true ↔
      ∀ (j : Nat) (c : V8Context), s.contexts[j]? = some c →
        ∀ q, c.loggerSlot = some q → s.loggerLive q = true := by
  unfold Isolate.slotsValid
  rw [List.all_eq_true]
  constructor
  · intro h j c hj q hq
    have := h c (List.mem_iff_getElem?.2 ⟨j, hj⟩)
    simpa [hq] using this
  · intro h c hc
    obtain ⟨j, hj⟩ := List.mem_iff_getElem?.1 hc
    cases hq : c.loggerSlot with
    | none => rfl
    | some q => exact h j c hj q hq

theorem slotOk_of_slotsValid {s : Isolate} (h : s.slotsValid = true) {i : CtxId}
    (hi : i < s.contexts.length) : s.slotOk i = true := by
  unfold Isolate.slotOk
  rw [List.getElem?_eq_getElem hi]
  cases hq : (s.contexts[i]).loggerSlot with
  | none => simp [hq]
  | some q =>
    simp only [hq]
    exact (slotsValid_iff s).1 h i _ (List.getElem?_eq_getElem hi) q hq

theorem slotsValid_of_log {c : CContext} {s s1 : Isolate} (h : c.log s = .ok s1)
    (hv : s.slotsValid = true) : s1.slotsValid = true := by
  obtain ⟨i, ctx, p, _, _, _, _, h1, h2, h3, h4⟩ := log_ok h
  rw [slotsValid_iff] at hv ⊢
  intro j c hj q hq
  by_cases hji : j = i
  · subst hji
    rw [h1] at hj
    cases hj
    simp only [Option.some.injEq] at hq
    subst hq
    exact h2
  · rw [h3 j hji] at hj
    exact h4 q (hv j c hj q hq)

theorem Enter_returns {c : CContext} {s : Isolate} {i : CtxId} (hc : c.m_context = some i)
    (hv : s.slotsValid = true) (hi : i < s.contexts.length) :
    ∃ s1, c.Enter s = .ok s1 ∧ s1.slotsValid = true := by
  have hs : (s.enter i).slotOk i = true := slotOk_of_slotsValid hv hi
  obtain ⟨s1, h1⟩ := log_returns hc hs
  exact ⟨s1, by simp [Enter, Context, hc, h1], slotsValid_of_log h1 hv⟩

theorem Leave_returns {c : CContext} {s : Isolate} {i : CtxId} {rest : List CtxId}
    (hc : c.m_context = some i) (hv : s.slotsValid = true) (hi : i < s.contexts.length)
    (he : s.entered = i :: rest) :
    ∃ s1, c.Leave s = .ok s1 ∧ s1.slotsValid = true := by
  have hs : Isolate.slotOk { s with entered := rest } i = true := slotOk_of_slotsValid hv hi
  obtain ⟨s1, h1⟩ := log_returns hc hs
  exact ⟨s1, by simp [Leave, Context, hc, Isolate.exit, he, h1], slotsValid_of_log h1 hv⟩

/-- A properly nested sequence that returns pops exactly the enters that were
pending. -/
theorem runEvents_entered (evs : List Event) :
    ∀ (pending base : List CtxId) (s s1 : Isolate), paired pending evs = true →
      s.entered = pending ++ base → runEvents evs s = .ok s1 → s1.entered = base := by
  induction evs with
  | nil =>
    intro pending base s s1 hp he hr
    simp only [paired, List.isEmpty_iff] at hp
    simp only [runEvents, Except.ok.injEq] at hr
    subst hp
    subst hr
    simpa using he
  | cons e rest ih =>
    intro pending base s s1 hp he hr
    cases e with
    | enter c =>
      cases hen : c.Enter s with
      | error e => simp [runEvents, hen] at hr
      | ok s2 =>
        simp only [runEvents, hen] at hr
        obtain ⟨i, hi, he2, _⟩ := Enter_ok hen
        simp only [paired, hi] at hp
        exact ih (i :: pending) base s2 s1 hp (by rw [he2, he]; rfl) hr
    | leave c =>
      cases hle : c.Leave s with
      | error e => simp [runEvents, hle] at hr
      | ok s2 =>
        simp only [runEvents, hle] at hr
        obtain ⟨i, hi, he2, _⟩ := Leave_ok hle
        cases pending with
        | nil => simp [paired] at hp
        | cons top pending1 =>
          simp only [paired, Bool.and_eq_true, beq_iff_eq] at hp
          rw [he2] at he
          simp only [List.cons_append, List.cons.injEq] at he
          exact ih pending1 base s2 s1 hp.2 he.2 hr

/-- A properly nested sequence on Contexts of the engine returns when every
slot is unset or holds an allocated logger; that holds again afterwards, and
the engine has the same number of contexts. -/
theorem runEvents_returns (evs : List Event) :
    ∀ (pending base : List CtxId) (s : Isolate), paired pending evs = true →
      s.entered = pending ++ base → s.slotsValid = true →
      (∀ e ∈ evs, ∀ i, e.target.m_context = some i → i < s.contexts.length) →
      (∀ i ∈ pending, i < s.contexts.length) →
      ∃ s1, runEvents evs s = .ok s1 ∧ s1.slotsValid = true ∧
        s1.contexts.length = s.contexts.length := by
  induction evs with
  | nil =>
    intro pending base s _ _ hv _ _
    exact ⟨s, rfl, hv, rfl⟩
  | cons e rest ih =>
    intro pending base s hp he hv hr hpend
    cases e with
    | enter c =>
      cases hi : c.m_context with
      | none => simp [paired, hi] at hp
      | some i =>
        simp only [paired, hi] at hp
        have hlt : i < s.contexts.length := hr (.enter c) (List.mem_cons_self _ _) i hi
        obtain ⟨s2, hen, hv2⟩ := Enter_returns hi hv hlt
        obtain ⟨j, hj, he2, hlen⟩ := Enter_ok hen
        rw [hi] at hj
        cases hj
        obtain ⟨s1, h1, h2, h3⟩ := ih (i :: pending) base s2 hp (by rw [he2, he]; rfl) hv2
          (fun e he3 k hk => by rw [hlen]; exact hr e (List.mem_cons_of_mem _ he3) k hk)
          (fun k hk => by
            rw [hlen]
            rcases List.mem_cons.1 hk with h4 | h4
            · rw [h4]; exact hlt
            · exact hpend k h4)
        exact ⟨s1, by simp only [runEvents, hen, h1], h2, by rw [h3, hlen]⟩
    | leave c =>
      cases pending with
      | nil => simp [paired] at hp
      | cons top pending1 =>
        simp only [paired, Bool.and_eq_true, beq_iff_eq] at hp
        have hlt : top < s.contexts.length := hpend top (List.mem_cons_self _ _)
        obtain ⟨s2, hle, hv2⟩ := Leave_returns hp.1 hv hlt (by rw [he]; rfl)
        obtain ⟨j, hj, he2, hlen⟩ := Leave_ok hle
        rw [he] at he2
        simp only [List.cons_append, List.cons.injEq] at he2
        obtain ⟨s1, h1, h2, h3⟩ := ih pending1 base s2 hp.2 he2.2.symm hv2
          (fun e he3 k hk => by rw [hlen]; exact hr e (List.mem_cons_of_mem _ he3) k hk)
          (fun k hk => by rw [hlen]; exact hpend k (List.mem_cons_of_mem _ hk))
        exact ⟨s1, by simp only [runEvents, hle, h1], h2, by rw [h3, hlen]⟩

theorem wrap_fst {s : Isolate} (hv : s.slotsValid = true) (i : CtxId) :
    (wrap (some i) s).map Prod.fst
      = if i < s.contexts.length then .ok { m_context := some i, m_global := .none }
        else .error .invalidHandle := by
  by_cases hi : i < s.contexts.length
  · obtain ⟨s1, h1⟩ := @log_returns ⟨some i, .none⟩ s i rfl (slotOk_of_slotsValid hv hi)
    simp [wrap, h1, hi, Except.map]
  · have hnone : s.contexts[i]? = none := List.getElem?_eq_none (Nat.le_of_not_lt hi)
    simp [wrap, log, logger, GetLogger, GetEmbedderData, hnone, hi, Except.map]

theorem GetCurrent_fst_congr {s s1 : Isolate} (hv : s.slotsValid = true)
    (hv1 : s1.slotsValid = true) (he : s1.entered = s.entered)
    (hl : s1.contexts.length = s.contexts.length) :
    (GetCurrent s1).map Prod.fst = (GetCurrent s).map Prod.fst := by
  have key : ∀ u : Isolate, u.slotsValid = true →
      (GetCurrent u).map Prod.fst
        = match u.entered.head? with
          | none => .ok none
          | some i => if i < u.contexts.length then .ok (some { m_context := some i, m_global := .none })
                      else .error .invalidHandle := by
    intro u hu
    cases hh : u.entered.head? with
    | none => simp [GetCurrent, GetCurrentOn, Isolate.GetCurrentContext, hh, Except.map]
    | some i =>
      have hw := wrap_fst hu i
      by_cases hi : i < u.contexts.length
      · simp only [hi, if_true] at hw ⊢
        cases hwr : wrap (some i) u with
        | error e => simp [hwr, Except.map] at hw
        | ok r =>
          simp only [hwr, Except.map, Except.ok.injEq] at hw
          simp [GetCurrent, GetCurrentOn, Isolate.GetCurrentContext, hh, wrapOrNone, hwr,
            Except.map, hw]
      · simp only [hi, if_false] at hw ⊢
        cases hwr : wrap (some i) u with
        | error e =>
          simp only [hwr, Except.map, Except.error.injEq] at hw
          simp [GetCurrent, GetCurrentOn, Isolate.GetCurrentContext, hh, wrapOrNone, hwr,
            Except.map, hw]
        | ok r => simp [hwr, Except.map] at hw
  rw [key s hv, key s1 hv1, he, hl]

/-- C3: after a sequence of `Enter` and `Leave` calls on live Contexts that is
properly nested, the stack of entered contexts, and so the engine's current
context, is the one before the sequence, whenever the sequence returns; and it
returns, with `GetCurrent` giving a Context of the same engine context as
before (or the host null value as before), when the Contexts are of this engine
and every slot is unset or holds an allocated logger. -/
theorem balanced_events_restore_current (evs : List Event) (s : Isolate)
    (h : paired [] evs = true) :
    (∀ s1, runEvents evs s = .ok s1 →
      s1.entered = s.entered ∧ s1.GetCurrentContext = s.GetCurrentContext) ∧
    (s.slotsValid = true →
      (∀ e ∈ evs, ∀ i, e.target.m_context = some i → i < s.contexts.length) →
      ∃ s1, runEvents evs s = .ok s1 ∧ s1.entered = s.entered ∧
        (GetCurrent s1).map Prod.fst = (GetCurrent s).map Prod.fst) := by
  constructor
  · intro s1 hr
    have he := runEvents_entered evs [] s.entered s s1 h rfl hr
    exact ⟨he, by simp [Isolate.GetCurrentContext, he]⟩
  · intro hv hr
    obtain ⟨s1, h1, h2, h3⟩ := runEvents_returns evs [] s.entered s h rfl hv hr
      (fun i hi => by cases hi)
    have he := runEvents_entered evs [] s.entered s s1 h rfl h1
    exact ⟨s1, h1, he, GetCurrent_fst_congr hv h2 he h3⟩

/-- C3 on two contexts with context 1 entered: enter 0, enter 1, leave 1,
leave 0 returns with context 1 on top again. -/
theorem balanced_events_restore_current_witness :
    ∃ s1, runEvents [.enter ⟨some 0, .none⟩, .enter ⟨some 1, .none⟩, .leave ⟨some 1, .none⟩,
        .leave ⟨some 0, .none⟩] ⟨[V8Context.fresh, V8Context.fresh], [1], []⟩ = .ok s1 ∧
      s1.entered = [1] ∧
      (GetCurrent s1).map Prod.fst
        = (GetCurrent ⟨[V8Context.fresh, V8Context.fresh], [1], []⟩).map Prod.fst :=
  (balanced_events_restore_current
    [.enter ⟨some 0, .none⟩, .enter ⟨some 1, .none⟩, .leave ⟨some 1, .none⟩, .leave ⟨some 0, .none⟩]
    ⟨[V8Context.fresh, V8Context.fresh], [1], []⟩ rfl).2 rfl (by decide)

end CContext

end PyV8
